import Mathlib

/-!
Verification of the Counter-Strike regional standings dashboard
(`CS_Valve_rankings.py`): a shallow embedding of its fetcher, markdown-table
parser and presenter, together with theorems settling the specification's
claims about them.

Python strings are modelled as Lean `String`s, with the handful of Python
string operations the source uses (`strip`, `split`, `startswith`, `index`,
slicing) re-implemented over the underlying character lists with Python's
semantics.  Whitespace is modelled as the ASCII whitespace characters, which
is what the source documents contain.
-/

/-- Python whitespace test (ASCII subset of `str.strip`'s default set). -/
def pySpace (c : Char) : Bool :=
  c == ' ' || c == '\t' || c == '\n' || c == '\r' || c == '\x0b' || c == '\x0c'

/-- Python `str.strip()` on a character list: drop whitespace at both ends. -/
def stripChars (cs : List Char) : List Char :=
  ((cs.dropWhile pySpace).reverse.dropWhile pySpace).reverse

/-- Python `str.strip()`. -/
def pyStrip (s : String) : String := String.mk (stripChars s.data)

/-- Python `str.split(sep)` for a single-character separator: splits at every
occurrence of the separator, keeping empty fragments (`"".split(c) == [""]`). -/
def splitOnChar (sep : Char) : List Char → List (List Char)
  | [] => [[]]
  | c :: cs =>
    match splitOnChar sep cs with
    | [] => [[]]
    | r :: rs => if c == sep then [] :: r :: rs else (c :: r) :: rs

/-- Python `str.split(sep)` returning strings. -/
def pySplit (sep : Char) (s : String) : List String :=
  (splitOnChar sep s.data).map String.mk

/-- `markdown_text.strip().split('\n')` (line 26 of the source). -/
def pyLines (text : String) : List String := pySplit '\n' (pyStrip text)

/-- Python `str.startswith(pat)`. -/
def pyStartsWith (s pat : String) : Bool := pat.data.isPrefixOf s.data

/-! ## Timestamp regular expression

The source (line 29) runs
`re.search(r"(?:Standings|Regional Standings for \w+) as of (\d{4}-\d{2}-\d{2})", lines[0])`
and keeps capture group 1.  The pattern is embedded directly:

* `re.search` tries each start position left to right and, at a position,
  the two alternatives in order; the first full match wins.
* `\w+` is greedy; since the character required right after it is a space
  (non-word), only the maximal word-character run can ever succeed, so no
  backtracking over the run length is needed.
* `\d{4}`, `\d{2}` are fixed counts, so they need no backtracking either.
* `\w` is modelled as ASCII alphanumeric or underscore, `\d` as ASCII digit
  (the documents are ASCII).
-/

/-- Regex `\w` (ASCII). -/
def wordChar (c : Char) : Bool := c.isAlphanum || c == '_'

/-- Match exactly `n` digits, returning them and the remaining input. -/
def takeExactDigits : Nat → List Char → Option (List Char × List Char)
  | 0, cs => some ([], cs)
  | _ + 1, [] => none
  | n + 1, c :: cs =>
    if c.isDigit then
      match takeExactDigits n cs with
      | some (d, r) => some (c :: d, r)
      | none => none
    else none

/-- Match a literal at the front of the input, returning the rest. -/
def dropLit : List Char → List Char → Option (List Char)
  | [], cs => some cs
  | _ :: _, [] => none
  | p :: ps, c :: cs => if p == c then dropLit ps cs else none

/-- Match `" as of (\d{4}-\d{2}-\d{2})"` and return the captured date. -/
def matchDateTail (cs : List Char) : Option (List Char) :=
  match dropLit " as of ".data cs with
  | none => none
  | some r0 =>
    match takeExactDigits 4 r0 with
    | none => none
    | some (y, r1) =>
      match dropLit ['-'] r1 with
      | none => none
      | some r2 =>
        match takeExactDigits 2 r2 with
        | none => none
        | some (m, r3) =>
          match dropLit ['-'] r3 with
          | none => none
          | some r4 =>
            match takeExactDigits 2 r4 with
            | none => none
            | some (d, _) => some (y ++ '-' :: m ++ '-' :: d)

/-- Second alternative: `Regional Standings for \w+` followed by the date tail. -/
def matchRegionalAlt (cs : List Char) : Option (List Char) :=
  match dropLit "Regional Standings for ".data cs with
  | none => none
  | some r =>
    let run := r.takeWhile wordChar
    if run.isEmpty then none else matchDateTail (r.drop run.length)

/-- Try the full pattern anchored at the current position: first the
`Standings` alternative, then the `Regional Standings for \w+` one. -/
def matchAlt (cs : List Char) : Option (List Char) :=
  match dropLit "Standings".data cs with
  | some r =>
    match matchDateTail r with
    | some d => some d
    | none => matchRegionalAlt cs
  | none => matchRegionalAlt cs

/-- `re.search`: leftmost start position at which the pattern matches. -/
def reSearch : List Char → Option (List Char)
  | [] => none
  | c :: cs =>
    match matchAlt (c :: cs) with
    | some d => some d
    | none => reSearch cs

/-- Lines 29-30 of the source: the Standings Timestamp is the captured date of
the first line when the pattern matches, `"Unknown"` otherwise.  Total: this
step cannot fail. -/
def timestampOf (lines : List String) : String :=
  match reSearch (lines.headD "").data with
  | some d => String.mk d
  | none => "Unknown"

/-! ## The parser -/

/-- The failure modes of `parse_markdown_table`.  `missingHeader` and
`noDataRows` are the two `ValueError`s the source raises explicitly;
`parenNotFound` is the `ValueError` escaping `str.index('(')` on line 50;
`indexError` stands for the `IndexError` of `headers[-1]` on an empty list
(unreachable, since the header line starts with `| Standing |`). -/
inductive ParseErr where
  | missingHeader
  | noDataRows
  | parenNotFound
  | indexError
deriving DecidableEq

/-- The parsed table: in the source, the `DataFrame` columns and data plus the
timestamp returned alongside it. -/
structure ParseResult where
  columns : List String
  rows : List (List String)
  timestamp : String
deriving DecidableEq

/-- The header-line marker of line 33. -/
def headerMarker : String := "| Standing |"

/-- `line.startswith('| Standing |')` (line 33). -/
def lineStartsHeader (l : String) : Bool := pyStartsWith l headerMarker

/-- Locate the first header line (line 33's `next(...)`), returning it
together with the lines after it. -/
def findHeader : List String → Option (String × List String)
  | [] => none
  | l :: rest => if lineStartsHeader l then some (l, rest) else findHeader rest

/-- `[cell.strip() for cell in line.split('|')[1:-1]]` (lines 39 and 46). -/
def splitCells (l : String) : List String :=
  (((pySplit '|' l).drop 1).dropLast).map pyStrip

/-- `headers[-1] = "Details"` (line 40); `none` models the `IndexError` on an
empty list. -/
def setLastDetails (hs : List String) : Option (List String) :=
  match hs with
  | [] => none
  | _ :: _ => some (hs.dropLast ++ ["Details"])

/-- `line.startswith('|') and '|' in line` (line 45). -/
def lineIsCandidate (l : String) : Bool :=
  pyStartsWith l "|" && l.data.contains '|'

/-- `if row and len(row) == len(headers)` (line 47). -/
def keepRow (n : Nat) (row : List String) : Bool :=
  !row.isEmpty && row.length == n

/-- The fixed URL base prepended on line 50. -/
def linkBase : String :=
  "https://github.com/ValveSoftware/counter-strike_regional_standings/blob/main/"

/-- Lines 49-50: `detail_link = row[-1]`, then replace `row[-1]` with
`linkBase + detail_link[detail_link.index('(') + 1:-1]`.  The Python slice
`[i+1:-1]` takes the characters after position `i`, dropping the final one. -/
def transformRow (row : List String) : Except ParseErr (List String) :=
  match row.getLast? with
  | none => .error .indexError
  | some cell =>
    match cell.data.findIdx? (fun c => c == '(') with
    | none => .error .parenNotFound
    | some i =>
      .ok (row.dropLast ++ [linkBase ++ String.mk ((cell.data.drop (i + 1)).dropLast)])

/-- The row loop of lines 43-51 over `lines[header_index+2:]`, with `n` the
header count.  An error raised for one row aborts the whole parse, exactly as
the uncaught `ValueError` does in the source. -/
def extractData (n : Nat) : List String → Except ParseErr (List (List String))
  | [] => .ok []
  | l :: rest =>
    if lineIsCandidate l then
      let row := splitCells l
      if keepRow n row then
        match transformRow row with
        | .error e => .error e
        | .ok r =>
          match extractData n rest with
          | .error e => .error e
          | .ok rs => .ok (r :: rs)
      else extractData n rest
    else extractData n rest

/-- `parse_markdown_table` (lines 25-59).  The source computes the timestamp
before locating the header; since that step is total and pure, computing it at
result-assembly time is observationally identical. -/
def parse_markdown_table (markdown_text : String) : Except ParseErr ParseResult :=
  match findHeader (pyLines markdown_text) with
  | none => .error .missingHeader
  | some (hline, rest) =>
    match setLastDetails (splitCells hline) with
    | none => .error .indexError
    | some headers =>
      match extractData headers.length (rest.drop 1) with
      | .error e => .error e
      | .ok [] => .error .noDataRows
      | .ok data => .ok ⟨headers, data, timestampOf (pyLines markdown_text)⟩

/-! ## Spec-side link rule, for refinement comparison -/

/-- Index of the last `')'` in a character list, if any. -/
def lastClosingParen (cs : List Char) : Option Nat :=
  match cs.reverse.findIdx? (fun c => c == ')') with
  | some k => some (cs.length - 1 - k)
  | none => none

/-- Follows the spec's words, for comparison with the source's slice: "the
text between the first `(` and the last `)` in the original last cell" — the
substring strictly between those two characters (empty when either is
absent, a case the spec leaves undefined). -/
def specBetweenParens (cell : String) : String :=
  match cell.data.findIdx? (fun c => c == '('), lastClosingParen cell.data with
  | some i, some j => String.mk ((cell.data.take j).drop (i + 1))
  | _, _ => ""

/-! ## Fetcher

The four region URLs of lines 9-14, and the cached fetch of lines 16-23.
The cache itself is the third-party `st.cache_data(ttl=24*60*60)` decorator,
whose implementation is not part of this repository, so it is modelled from
the spec. -/

/-- `LEADERBOARD_URLS` (lines 9-14). -/
def LEADERBOARD_URLS : List (String × String) :=
  [("Global", "https://raw.githubusercontent.com/ValveSoftware/counter-strike_regional_standings/main/standings_global.md"),
   ("Americas", "https://raw.githubusercontent.com/ValveSoftware/counter-strike_regional_standings/main/standings_americas.md"),
   ("Asia", "https://raw.githubusercontent.com/ValveSoftware/counter-strike_regional_standings/main/standings_asia.md"),
   ("Europe", "https://raw.githubusercontent.com/ValveSoftware/counter-strike_regional_standings/main/standings_europe.md")]

/-- The cache validity window: `ttl=24*60*60` seconds (line 16). -/
def cacheTTL : Nat := 24 * 60 * 60

/-- One cache entry: a stored response body and the instant it was fetched. -/
structure CacheEntry where
  body : String
  fetchedAt : Nat
deriving DecidableEq

/-- Modelled from the spec: the lookup side of the `st.cache_data` decorator,
which is third-party code absent from the repository.  "Consult a
process-wide cache keyed by the source location.  If a valid (non-expired)
entry exists, return its stored text without making a network call." -/
def lookupFresh (cache : List (String × CacheEntry)) (url : String) (now : Nat) :
    Option CacheEntry :=
  match cache.find? (fun p => p.1 == url) with
  | some (_, e) => if now < e.fetchedAt + cacheTTL then some e else none
  | none => none

/-- Modelled from the spec: the store side of the decorator — "store the
response body text in the cache with the current instant as its creation
time, keyed by the source location", replacing any previous entry. -/
def storeEntry (cache : List (String × CacheEntry)) (url : String) (e : CacheEntry) :
    List (String × CacheEntry) :=
  (url, e) :: cache.filter (fun p => p.1 != url)

/-- The observable outcome of one `fetch_leaderboard_data` call: the text
handed to the caller, the cache afterwards, how many network requests the
call issued, and whether `st.error` was shown. -/
structure FetchStep where
  result : Option String
  cache : List (String × CacheEntry)
  networkCalls : Nat
  errorShown : Bool
deriving DecidableEq

/-- `fetch_leaderboard_data` (lines 16-23) under the spec-modelled cache.
`response` stands for the network: `some body` is an HTTP 200 reply with
that body, `none` any other status.  On 200 the body is returned and cached;
otherwise `st.error` is shown and `None` returned (lines 19-23). -/
def fetch_leaderboard_data (cache : List (String × CacheEntry)) (url : String)
    (now : Nat) (response : Option String) : FetchStep :=
  match lookupFresh cache url now with
  | some e => ⟨some e.body, cache, 0, false⟩
  | none =>
    match response with
    | some body => ⟨some body, storeEntry cache url ⟨body, now⟩, 1, false⟩
    | none => ⟨none, cache, 1, true⟩

/-! ## Presenter -/

/-- What `display_leaderboard` paints inside one tab: a table, a parse-error
diagnostic, or nothing at all. -/
inductive RenderOutcome where
  | shownTable (res : ParseResult)
  | shownParseError (e : ParseErr)
  | nothing
deriving DecidableEq

/-- Python truthiness of the fetched value: `None` and the empty string are
both falsy (`if markdown_data:` on line 63). -/
def pyTruthy (md : Option String) : Bool :=
  match md with
  | none => false
  | some t => !t.data.isEmpty

/-- `display_leaderboard` (lines 61-83), restricted to its observable
rendering decision: when the fetched value is truthy the text is parsed and
either the table or the error diagnostics are shown; otherwise the tab gets
nothing. -/
def display_leaderboard (md : Option String) : RenderOutcome :=
  if pyTruthy md then
    match md with
    | some t =>
      match parse_markdown_table t with
      | .ok res => .shownTable res
      | .error e => .shownParseError e
    | none => .nothing
  else
    .nothing

theorem transformRow_length {row r : List String} (h : transformRow row = .ok r) :
    r.length = row.length := by
  unfold transformRow at h
  cases hcell : row.getLast? with
  | none => rw [hcell] at h; exact absurd h (by simp)
  | some cell =>
    rw [hcell] at h
    dsimp only at h
    cases hi : cell.data.findIdx? (fun c => c == '(') with
    | none => rw [hi] at h; exact absurd h (by simp)
    | some i =>
      rw [hi] at h
      have hne : row ≠ [] := by
        intro hnil; rw [hnil] at hcell; simp at hcell
      have hpos : 0 < row.length := List.length_pos.mpr hne
      injection h with h
      subst h
      simp [List.length_dropLast]
      omega

theorem extractData_cons (n : Nat) (l : String) (rest : List String) :
    extractData n (l :: rest) =
      if lineIsCandidate l then
        if keepRow n (splitCells l) then
          match transformRow (splitCells l) with
          | .error e => .error e
          | .ok r =>
            match extractData n rest with
            | .error e => .error e
            | .ok rs => .ok (r :: rs)
        else extractData n rest
      else extractData n rest := rfl

theorem keepRow_length {n : Nat} {row : List String} (h : keepRow n row = true) :
    row.length = n := by
  unfold keepRow at h
  simp at h
  exact h.2

theorem extractData_ok_length {n : Nat} {ls : List String} {rows : List (List String)}
    (h : extractData n ls = .ok rows) : ∀ r ∈ rows, r.length = n := by
  induction ls generalizing rows with
  | nil =>
    unfold extractData at h
    injection h with h
    subst h
    simp
  | cons l rest ih =>
    rw [extractData_cons] at h
    by_cases hc : lineIsCandidate l = true
    · rw [if_pos hc] at h
      by_cases hk : keepRow n (splitCells l) = true
      · rw [if_pos hk] at h
        cases htr : transformRow (splitCells l) with
        | error e => rw [htr] at h; exact absurd h (by simp)
        | ok r =>
          rw [htr] at h
          cases hrs : extractData n rest with
          | error e => rw [hrs] at h; exact absurd h (by simp)
          | ok rs =>
            rw [hrs] at h
            injection h with h
            subst h
            intro x hx
            rcases List.mem_cons.mp hx with hx | hx
            · subst hx
              have hlen := transformRow_length htr
              have := keepRow_length hk
              omega
            · exact ih hrs x hx
      · rw [if_neg hk] at h; exact ih h
    · rw [if_neg hc] at h; exact ih h

theorem parse_ok_inv {text : String} {res : ParseResult}
    (h : parse_markdown_table text = .ok res) :
    ∃ hline rest headers data,
      findHeader (pyLines text) = some (hline, rest) ∧
      setLastDetails (splitCells hline) = some headers ∧
      extractData headers.length (rest.drop 1) = .ok data ∧
      data ≠ [] ∧
      res = ⟨headers, data, timestampOf (pyLines text)⟩ := by
  unfold parse_markdown_table at h
  cases hf : findHeader (pyLines text) with
  | none => rw [hf] at h; exact absurd h (by simp)
  | some p =>
    obtain ⟨hline, rest⟩ := p
    rw [hf] at h
    dsimp only at h
    cases hs : setLastDetails (splitCells hline) with
    | none => rw [hs] at h; exact absurd h (by simp)
    | some headers =>
      rw [hs] at h
      dsimp only at h
      cases he : extractData headers.length (rest.drop 1) with
      | error e => rw [he] at h; exact absurd h (by simp)
      | ok data =>
        rw [he] at h
        cases data with
        | nil => exact absurd h (by simp)
        | cons d ds =>
          dsimp only at h
          injection h with h
          exact ⟨hline, rest, headers, d :: ds, rfl, hs, he, by simp, h.symm⟩

theorem extractData_skip {n : Nat} (l : String) (rest : List String)
    (h : keepRow n (splitCells l) = false) :
    extractData n (l :: rest) = extractData n rest := by
  rw [extractData_cons]
  by_cases hc : lineIsCandidate l = true
  · rw [if_pos hc, if_neg (by rw [h]; simp)]
  · rw [if_neg hc]

theorem extractData_all_skipped {n : Nat} {ls : List String}
    (h : ∀ l ∈ ls, keepRow n (splitCells l) = false) :
    extractData n ls = .ok [] := by
  induction ls with
  | nil => rfl
  | cons l rest ih =>
    rw [extractData_skip l rest (h l (by simp))]
    exact ih fun x hx => h x (List.mem_cons_of_mem _ hx)

theorem setLastDetails_length {hs hs2 : List String}
    (h : setLastDetails hs = some hs2) : hs2.length = hs.length := by
  unfold setLastDetails at h
  cases hs with
  | nil => exact absurd h (by simp)
  | cons a as =>
    dsimp only at h
    injection h with h
    subst h
    simp [List.length_dropLast]

theorem setLastDetails_last {hs hs2 : List String}
    (h : setLastDetails hs = some hs2) : hs2.getLast? = some "Details" := by
  unfold setLastDetails at h
  cases hs with
  | nil => exact absurd h (by simp)
  | cons a as =>
    dsimp only at h
    injection h with h
    subst h
    simp

theorem splitOnChar_ne_nil (sep : Char) (cs : List Char) : splitOnChar sep cs ≠ [] := by
  cases cs with
  | nil => simp [splitOnChar]
  | cons c cs =>
    unfold splitOnChar
    cases h : splitOnChar sep cs with
    | nil => simp
    | cons r rs =>
      dsimp only
      by_cases hc : (c == sep) = true
      · rw [if_pos hc]; simp
      · rw [if_neg hc]; simp

theorem splitOnChar_length (sep : Char) (cs : List Char) :
    (splitOnChar sep cs).length = cs.countP (fun c => c == sep) + 1 := by
  induction cs with
  | nil => simp [splitOnChar]
  | cons c cs ih =>
    unfold splitOnChar
    cases h : splitOnChar sep cs with
    | nil => exact absurd h (splitOnChar_ne_nil sep cs)
    | cons r rs =>
      rw [h] at ih
      dsimp only
      by_cases hc : (c == sep) = true
      · rw [if_pos hc]
        simp only [List.length_cons, List.countP_cons, hc]
        simp at ih ⊢
        omega
      · rw [if_neg hc]
        simp only [List.length_cons, List.countP_cons]
        rw [Bool.of_not_eq_true hc]
        simp at ih ⊢
        omega

theorem splitCells_length (l : String) :
    (splitCells l).length = l.data.countP (fun c => c == '|') - 1 := by
  unfold splitCells pySplit
  simp [List.length_dropLast, splitOnChar_length]

theorem header_splitCells_ne_nil {l : String} (h : lineStartsHeader l = true) :
    splitCells l ≠ [] := by
  unfold lineStartsHeader pyStartsWith at h
  rw [List.isPrefixOf_iff_prefix] at h
  obtain ⟨t, ht⟩ := h
  have hcount : 2 ≤ l.data.countP (fun c => c == '|') := by
    have : l.data.countP (fun c => c == '|') =
        headerMarker.data.countP (fun c => c == '|') + t.countP (fun c => c == '|') := by
      rw [← ht, List.countP_append]
    rw [this]
    have : headerMarker.data.countP (fun c => c == '|') = 2 := by decide
    omega
  have hlen := splitCells_length l
  intro hnil
  rw [hnil] at hlen
  simp at hlen
  omega

theorem setLastDetails_of_ne_nil {hs : List String} (h : hs ≠ []) :
    setLastDetails hs = some (hs.dropLast ++ ["Details"]) := by
  cases hs with
  | nil => exact absurd rfl h
  | cons a as => rfl

theorem findHeader_starts : ∀ {ls : List String} {hline : String} {rest : List String},
    findHeader ls = some (hline, rest) → lineStartsHeader hline = true := by
  intro ls
  induction ls with
  | nil => intro hline rest h; exact absurd h (by simp [findHeader])
  | cons l ls ih =>
    intro hline rest h
    unfold findHeader at h
    by_cases hc : lineStartsHeader l = true
    · rw [if_pos hc] at h
      injection h with h
      cases h
      exact hc
    · rw [if_neg hc] at h
      exact ih h

theorem findHeader_eq_none {ls : List String}
    (h : ∀ l ∈ ls, lineStartsHeader l = false) : findHeader ls = none := by
  induction ls with
  | nil => rfl
  | cons l rest ih =>
    unfold findHeader
    rw [if_neg (by rw [h l (by simp)]; simp)]
    exact ih fun x hx => h x (List.mem_cons_of_mem _ hx)

def exDocC1 : String :=
  "Standings as of 2024-01-10\n| Standing | Team | Points | Region | Details |\n|---|---|---|---|---|\n| 1 | Alpha | 1000 | EU | Profile(standings/alpha.md) |"

/-- C1: on the spec's four-line end-to-end document, Parse returns the five
column names, exactly one data row with the reconstructed details URL, and
the timestamp `2024-01-10`. -/
theorem c1_end_to_end :
    parse_markdown_table exDocC1 =
      .ok ⟨["Standing", "Team", "Points", "Region", "Details"],
           [["1", "Alpha", "1000", "EU",
             "https://github.com/ValveSoftware/counter-strike_regional_standings/blob/main/standings/alpha.md"]],
           "2024-01-10"⟩ := rfl

/-- C3: whenever Parse succeeds, every returned row has exactly as many cells
as there are column names; moreover a line whose pipe-split cell count
differs from the column count is skipped by the row loop without any effect
on the result (so it never raises and never appears in the output). -/
theorem c3_row_width :
    (∀ (text : String) (res : ParseResult), parse_markdown_table text = .ok res →
        ∀ r ∈ res.rows, r.length = res.columns.length) ∧
    (∀ (n : Nat) (l : String) (rest : List String), (splitCells l).length ≠ n →
        extractData n (l :: rest) = extractData n rest) := by
  constructor
  · intro text res h r hr
    obtain ⟨hline, rest, headers, data, hf, hs, he, hne, hres⟩ := parse_ok_inv h
    subst hres
    exact extractData_ok_length he r hr
  · intro n l rest hlen
    apply extractData_skip
    have hb : ((splitCells l).length == n) = false := by
      simp [hlen]
    simp [keepRow, hb]

/-- C3 witness: the theorem applied to the end-to-end document and to a
concrete mismatched line. -/
theorem c3_row_width_witness :
    (["1", "Alpha", "1000", "EU",
      "https://github.com/ValveSoftware/counter-strike_regional_standings/blob/main/standings/alpha.md"] :
        List String).length =
      (["Standing", "Team", "Points", "Region", "Details"] : List String).length ∧
    extractData 5 ["| a | b |"] = extractData 5 [] := by
  constructor
  · exact c3_row_width.1 exDocC1
      ⟨["Standing", "Team", "Points", "Region", "Details"],
       [["1", "Alpha", "1000", "EU",
         "https://github.com/ValveSoftware/counter-strike_regional_standings/blob/main/standings/alpha.md"]],
       "2024-01-10"⟩ (by rfl) _ (by simp)
  · exact c3_row_width.2 5 "| a | b |" [] (by decide)

/-- C4: whenever Parse succeeds, the last column name is exactly `Details`,
whatever the source header called that column. -/
theorem c4_details_column :
    ∀ (text : String) (res : ParseResult), parse_markdown_table text = .ok res →
      res.columns.getLast? = some "Details" := by
  intro text res h
  obtain ⟨hline, rest, headers, data, hf, hs, he, hne, hres⟩ := parse_ok_inv h
  subst hres
  exact setLastDetails_last hs

/-- C4 witness: the theorem applied to the end-to-end document. -/
theorem c4_details_column_witness :
    (["Standing", "Team", "Points", "Region", "Details"] : List String).getLast? =
      some "Details" :=
  c4_details_column exDocC1
    ⟨["Standing", "Team", "Points", "Region", "Details"],
     [["1", "Alpha", "1000", "EU",
       "https://github.com/ValveSoftware/counter-strike_regional_standings/blob/main/standings/alpha.md"]],
     "2024-01-10"⟩ (by rfl)

/-- C5 (amended): if no line of the whitespace-stripped text begins with
`| Standing |`, Parse fails with the missing-header StructureError; the
error value carries no columns, rows or timestamp. -/
theorem c5_missing_header :
    ∀ text : String, (∀ l ∈ pyLines text, lineStartsHeader l = false) →
      parse_markdown_table text = .error .missingHeader := by
  intro text h
  unfold parse_markdown_table
  rw [findHeader_eq_none h]

/-- C5 witness: the theorem applied to a document with no header line. -/
theorem c5_missing_header_witness :
    parse_markdown_table "no table here\njust text" = .error .missingHeader :=
  c5_missing_header "no table here\njust text" (by decide)

def exDocC5 : String := "\t| Standing | A |\n|---|---|\n| 1 | x(y) |"

/-- C5 counterexample: the claim as stated is false.  This document contains
no line beginning with `| Standing |` (its header line starts with a tab),
yet Parse succeeds and returns a table, because the source strips the whole
text before splitting it into lines. -/
theorem c5_missing_header_counterexample :
    pySplit '\n' exDocC5 = ["\t| Standing | A |", "|---|---|", "| 1 | x(y) |"] ∧
    lineStartsHeader "\t| Standing | A |" = false ∧
    lineStartsHeader "|---|---|" = false ∧
    lineStartsHeader "| 1 | x(y) |" = false ∧
    parse_markdown_table exDocC5 =
      .ok ⟨["Standing", "Details"], [["1", linkBase ++ "y"]], "Unknown"⟩ :=
  ⟨rfl, rfl, rfl, rfl, rfl⟩

def exDocC7a : String :=
  "Standings as of 2024-03-15\n| Standing | Details |\n|---|---|\n| 1 | a(b) |"

def exDocC7b : String :=
  "Regional Standings for Europe as of 2024-03-15\n| Standing | Details |\n|---|---|\n| 1 | a(b) |"

def exDocC7c : String :=
  "Hello world\n| Standing | Details |\n|---|---|\n| 1 | a(b) |"

/-- C7: the Standings Timestamp is a function of the first line alone and its
extraction never fails: on success the returned timestamp is the date the
pattern search captures on the first line when there is one and the literal
`Unknown` otherwise; first lines `Standings as of 2024-03-15` and
`Regional Standings for Europe as of 2024-03-15` both yield `2024-03-15`,
and a non-matching first line yields `Unknown` while the parse still
succeeds on an otherwise valid table. -/
theorem c7_timestamp :
    (∀ (text : String) (res : ParseResult) (d : List Char),
        parse_markdown_table text = .ok res →
        reSearch ((pyLines text).headD "").data = some d →
        res.timestamp = String.mk d) ∧
    (∀ (text : String) (res : ParseResult),
        parse_markdown_table text = .ok res →
        reSearch ((pyLines text).headD "").data = none →
        res.timestamp = "Unknown") ∧
    parse_markdown_table exDocC7a =
      .ok ⟨["Standing", "Details"], [["1", linkBase ++ "b"]], "2024-03-15"⟩ ∧
    parse_markdown_table exDocC7b =
      .ok ⟨["Standing", "Details"], [["1", linkBase ++ "b"]], "2024-03-15"⟩ ∧
    parse_markdown_table exDocC7c =
      .ok ⟨["Standing", "Details"], [["1", linkBase ++ "b"]], "Unknown"⟩ := by
  refine ⟨?_, ?_, rfl, rfl, rfl⟩
  · intro text res d h hre
    obtain ⟨hline, rest, headers, data, hf, hs, he, hne, hres⟩ := parse_ok_inv h
    subst hres
    show timestampOf (pyLines text) = String.mk d
    unfold timestampOf
    rw [hre]
  · intro text res h hre
    obtain ⟨hline, rest, headers, data, hf, hs, he, hne, hres⟩ := parse_ok_inv h
    subst hres
    show timestampOf (pyLines text) = "Unknown"
    unfold timestampOf
    rw [hre]

/-- C7 witness: the fallback part of the theorem applied to the document with
the non-matching first line. -/
theorem c7_timestamp_witness :
    (ParseResult.mk ["Standing", "Details"] [["1", linkBase ++ "b"]] "Unknown").timestamp =
      "Unknown" :=
  c7_timestamp.2.1 exDocC7c
    ⟨["Standing", "Details"], [["1", linkBase ++ "b"]], "Unknown"⟩ (by rfl) (by rfl)

theorem extractData_skip_notCandidate {n : Nat} (l : String) (rest : List String)
    (h : lineIsCandidate l = false) :
    extractData n (l :: rest) = extractData n rest := by
  rw [extractData_cons, if_neg (by rw [h]; simp)]

theorem extractData_none_kept {n : Nat} {ls : List String}
    (h : ∀ l ∈ ls, lineIsCandidate l = false ∨ keepRow n (splitCells l) = false) :
    extractData n ls = .ok [] := by
  induction ls with
  | nil => rfl
  | cons l rest ih =>
    have hrest := ih fun x hx => h x (List.mem_cons_of_mem _ hx)
    rcases h l (by simp) with hl | hl
    · rw [extractData_skip_notCandidate l rest hl]; exact hrest
    · rw [extractData_skip l rest hl]; exact hrest

/-- C6: when the header line is found but every following line is either not a
pipe row or fails the column-count filter, Parse fails with the no-data-rows
StructureError instead of returning an empty table. -/
theorem c6_no_data_rows :
    ∀ (text hline : String) (rest : List String),
      findHeader (pyLines text) = some (hline, rest) →
      (∀ l ∈ rest.drop 1, lineIsCandidate l = false ∨
          keepRow (splitCells hline).length (splitCells l) = false) →
      parse_markdown_table text = .error .noDataRows := by
  intro text hline rest hf hall
  have hne := header_splitCells_ne_nil (findHeader_starts hf)
  have hs := setLastDetails_of_ne_nil hne
  have hlen : ((splitCells hline).dropLast ++ ["Details"]).length =
      (splitCells hline).length := setLastDetails_length hs
  unfold parse_markdown_table
  rw [hf]
  dsimp only
  rw [hs]
  dsimp only
  rw [hlen, extractData_none_kept hall]

def exDocC6 : String :=
  "Standings as of 2024-01-01\n| Standing | Team |\n|---|---|\n| a | b | c |"

/-- C6 witness: the theorem applied to a document whose only data line has
three cells under a two-column header. -/
theorem c6_no_data_rows_witness :
    parse_markdown_table exDocC6 = .error .noDataRows :=
  c6_no_data_rows exDocC6 "| Standing | Team |" ["|---|---|", "| a | b | c |"]
    (by rfl) (by decide)

theorem keepRow_ne_nil {n : Nat} {row : List String} (h : keepRow n row = true) :
    row ≠ [] := by
  unfold keepRow at h
  simp at h
  intro hnil
  rw [hnil] at h
  simp at h

theorem getLast?_of_ne_nil {α : Type} [Inhabited α] {l : List α} (h : l ≠ []) :
    l.getLast? = some (l.getLastD default) := by
  cases hl : l.getLast? with
  | none => exact absurd (List.getLast?_eq_none_iff.mp hl) h
  | some a => rw [List.getLastD_eq_getLast?, hl]; rfl

theorem transformRow_error_eq {n : Nat} {row : List String} {e : ParseErr}
    (hk : keepRow n row = true) (h : transformRow row = .error e) :
    e = .parenNotFound := by
  have hne := keepRow_ne_nil hk
  have hcell := getLast?_of_ne_nil (α := String) hne
  unfold transformRow at h
  rw [hcell] at h
  dsimp only at h
  cases hi : (row.getLastD default).data.findIdx? (fun c => c == '(') with
  | none =>
    rw [hi] at h
    injection h with h
    exact h.symm
  | some i =>
    rw [hi] at h
    exact absurd h (by simp)

theorem transformRow_noParen {row : List String} (hne : row ≠ [])
    (hp : (row.getLastD "").data.contains '(' = false) :
    transformRow row = .error .parenNotFound := by
  have hcell := getLast?_of_ne_nil (α := String) hne
  unfold transformRow
  rw [hcell]
  dsimp only
  have hidx : (row.getLastD default).data.findIdx? (fun c => c == '(') = none := by
    rw [List.findIdx?_eq_none_iff]
    intro x hx
    have hmem : '(' ∉ (row.getLastD "").data := by
      intro hm
      have helem := List.elem_eq_true_of_mem hm
      unfold List.contains at hp
      rw [helem] at hp
      exact Bool.noConfusion hp
    have : x ≠ '(' := by
      intro hx'
      subst hx'
      exact hmem hx
    simp [this]
  rw [hidx]

theorem extractData_bad {n : Nat} {ls : List String}
    (h : ∃ l ∈ ls, lineIsCandidate l = true ∧ keepRow n (splitCells l) = true ∧
        ((splitCells l).getLastD "").data.contains '(' = false) :
    extractData n ls = .error .parenNotFound := by
  induction ls with
  | nil => obtain ⟨l, hl, _⟩ := h; simp at hl
  | cons a rest ih =>
    obtain ⟨l, hl, hcand, hkeep, hnp⟩ := h
    rcases List.mem_cons.mp hl with hhead | htl
    · subst hhead
      rw [extractData_cons, if_pos hcand, if_pos hkeep,
        transformRow_noParen (keepRow_ne_nil hkeep) hnp]
    · have htail := ih ⟨l, htl, hcand, hkeep, hnp⟩
      rw [extractData_cons]
      by_cases hca : lineIsCandidate a = true
      · rw [if_pos hca]
        by_cases hka : keepRow n (splitCells a) = true
        · rw [if_pos hka]
          cases hta : transformRow (splitCells a) with
          | error e =>
            rw [transformRow_error_eq hka hta]
          | ok r =>
            rw [htail]
        · rw [if_neg hka]; exact htail
      · rw [if_neg hca]; exact htail

/-- C9: if some line after the separator passes the width filter but its last
cell contains no opening parenthesis, the whole parse fails (with the
substring-search error from `str.index`), rather than that row alone being
dropped. -/
theorem c9_paren_failure :
    ∀ (text hline : String) (rest : List String),
      findHeader (pyLines text) = some (hline, rest) →
      (∃ l ∈ rest.drop 1, lineIsCandidate l = true ∧
          keepRow (splitCells hline).length (splitCells l) = true ∧
          ((splitCells l).getLastD "").data.contains '(' = false) →
      parse_markdown_table text = .error .parenNotFound := by
  intro text hline rest hf hbad
  have hne := header_splitCells_ne_nil (findHeader_starts hf)
  have hs := setLastDetails_of_ne_nil hne
  have hlen : ((splitCells hline).dropLast ++ ["Details"]).length =
      (splitCells hline).length := setLastDetails_length hs
  unfold parse_markdown_table
  rw [hf]
  dsimp only
  rw [hs]
  dsimp only
  rw [hlen, extractData_bad hbad]

def exDocC9 : String :=
  "Standings as of 2024-01-01\n| Standing | D |\n|---|---|\n| 1 | nolink |"

/-- C9 witness: the theorem applied to a document whose only data row has a
well-shaped width but no parenthesis in its last cell. -/
theorem c9_paren_failure_witness :
    parse_markdown_table exDocC9 = .error .parenNotFound :=
  c9_paren_failure exDocC9 "| Standing | D |" ["|---|---|", "| 1 | nolink |"]
    (by rfl) (by decide)

theorem transformRow_ok_inv {row r : List String} (h : transformRow row = .ok r) :
    ∃ cell i, row.getLast? = some cell ∧
      cell.data.findIdx? (fun c => c == '(') = some i ∧
      r = row.dropLast ++ [linkBase ++ String.mk ((cell.data.drop (i + 1)).dropLast)] := by
  unfold transformRow at h
  cases hcell : row.getLast? with
  | none => rw [hcell] at h; exact absurd h (by simp)
  | some cell =>
    rw [hcell] at h
    dsimp only at h
    cases hi : cell.data.findIdx? (fun c => c == '(') with
    | none => rw [hi] at h; exact absurd h (by simp)
    | some i =>
      rw [hi] at h
      injection h with h
      exact ⟨cell, i, rfl, hi, h.symm⟩

theorem extractData_rows_shape {n : Nat} {ls : List String} {rows : List (List String)}
    (h : extractData n ls = .ok rows) :
    ∀ r ∈ rows, ∃ l ∈ ls, ∃ cell i,
      (splitCells l).getLast? = some cell ∧
      cell.data.findIdx? (fun c => c == '(') = some i ∧
      r = (splitCells l).dropLast ++
          [linkBase ++ String.mk ((cell.data.drop (i + 1)).dropLast)] := by
  induction ls generalizing rows with
  | nil =>
    unfold extractData at h
    injection h with h
    subst h
    simp
  | cons a rest ih =>
    rw [extractData_cons] at h
    by_cases hc : lineIsCandidate a = true
    · rw [if_pos hc] at h
      by_cases hk : keepRow n (splitCells a) = true
      · rw [if_pos hk] at h
        cases hta : transformRow (splitCells a) with
        | error e => rw [hta] at h; exact absurd h (by simp)
        | ok r0 =>
          rw [hta] at h
          cases hrs : extractData n rest with
          | error e => rw [hrs] at h; exact absurd h (by simp)
          | ok rs =>
            rw [hrs] at h
            injection h with h
            subst h
            intro r hr
            rcases List.mem_cons.mp hr with hr | hr
            · subst hr
              obtain ⟨cell, i, h1, h2, h3⟩ := transformRow_ok_inv hta
              exact ⟨a, by simp, cell, i, h1, h2, h3⟩
            · obtain ⟨l, hl, rest'⟩ := ih hrs r hr
              exact ⟨l, List.mem_cons_of_mem _ hl, rest'⟩
      · rw [if_neg hk] at h
        intro r hr
        obtain ⟨l, hl, rest'⟩ := ih h r hr
        exact ⟨l, List.mem_cons_of_mem _ hl, rest'⟩
    · rw [if_neg hc] at h
      intro r hr
      obtain ⟨l, hl, rest'⟩ := ih h r hr
      exact ⟨l, List.mem_cons_of_mem _ hl, rest'⟩

theorem findHeader_rest_mem : ∀ {ls : List String} {hline : String} {rest : List String},
    findHeader ls = some (hline, rest) → ∀ x ∈ rest, x ∈ ls := by
  intro ls
  induction ls with
  | nil => intro hline rest h; exact absurd h (by simp [findHeader])
  | cons l ls ih =>
    intro hline rest h
    unfold findHeader at h
    by_cases hc : lineStartsHeader l = true
    · rw [if_pos hc] at h
      injection h with h
      cases h
      intro x hx
      exact List.mem_cons_of_mem _ hx
    · rw [if_neg hc] at h
      intro x hx
      exact List.mem_cons_of_mem _ (ih h x hx)

theorem pySlice_eq_specBetween {cell : String} {i : Nat}
    (hi : cell.data.findIdx? (fun c => c == '(') = some i)
    (hlast : cell.data.getLast? = some ')') :
    String.mk ((cell.data.drop (i + 1)).dropLast) = specBetweenParens cell := by
  unfold specBetweenParens lastClosingParen
  rw [hi]
  have h1 : cell.data.reverse.head? = some ')' := by
    rw [List.head?_reverse]; exact hlast
  have h2 : cell.data.reverse.findIdx? (fun c => c == ')') = some 0 := by
    cases hrev : cell.data.reverse with
    | nil => rw [hrev] at h1; exact absurd h1 (by simp)
    | cons x xs =>
      rw [hrev] at h1
      injection h1 with h1
      subst h1
      simp [List.findIdx?_cons]
  rw [h2]
  dsimp only
  congr 1
  rw [List.dropLast_eq_take, List.length_drop, Nat.sub_zero, List.drop_take]
  congr 1
  omega

def exDocC2 : String :=
  "Standings as of 2024-01-10\n| Standing | Team | Details |\n|---|---|---|\n| 1 | Alpha | View(standings/detail1.md) |"

/-- C2 (amended): every kept data row's last cell is the fixed URL base
concatenated with the slice of the original last cell that starts just after
the first `(` and drops only the cell's final character (the Python slice
`[index('(')+1:-1]`).  Whenever the cell's final character is `)` — in
particular for `View(standings/detail1.md)` — this coincides with the spec's
"text between the first `(` and the last `)`". -/
theorem c2_link_rule :
    (∀ (text : String) (res : ParseResult), parse_markdown_table text = .ok res →
        ∀ r ∈ res.rows, ∃ l ∈ pyLines text, ∃ cell i,
          (splitCells l).getLast? = some cell ∧
          cell.data.findIdx? (fun c => c == '(') = some i ∧
          r = (splitCells l).dropLast ++
              [linkBase ++ String.mk ((cell.data.drop (i + 1)).dropLast)] ∧
          (cell.data.getLast? = some ')' →
            String.mk ((cell.data.drop (i + 1)).dropLast) = specBetweenParens cell)) ∧
    parse_markdown_table exDocC2 =
      .ok ⟨["Standing", "Team", "Details"],
           [["1", "Alpha", linkBase ++ "standings/detail1.md"]], "2024-01-10"⟩ := by
  constructor
  · intro text res h r hr
    obtain ⟨hline, rest, headers, data, hf, hs, he, hne, hres⟩ := parse_ok_inv h
    subst hres
    obtain ⟨l, hl, cell, i, h1, h2, h3⟩ := extractData_rows_shape he r hr
    refine ⟨l, findHeader_rest_mem hf l (List.mem_of_mem_drop hl), cell, i, h1, h2, h3,
      fun hlast => pySlice_eq_specBetween h2 hlast⟩
  · rfl

/-- C2 witness: the amended rule applied to the kept row of the concrete
document with last cell `View(standings/detail1.md)`. -/
theorem c2_link_rule_witness :
    ∃ l ∈ pyLines exDocC2, ∃ cell i,
      (splitCells l).getLast? = some cell ∧
      cell.data.findIdx? (fun c => c == '(') = some i ∧
      (["1", "Alpha", linkBase ++ "standings/detail1.md"] : List String) =
        (splitCells l).dropLast ++
          [linkBase ++ String.mk ((cell.data.drop (i + 1)).dropLast)] ∧
      (cell.data.getLast? = some ')' →
        String.mk ((cell.data.drop (i + 1)).dropLast) = specBetweenParens cell) :=
  c2_link_rule.1 exDocC2
    ⟨["Standing", "Team", "Details"],
     [["1", "Alpha", linkBase ++ "standings/detail1.md"]], "2024-01-10"⟩
    (by rfl) ["1", "Alpha", linkBase ++ "standings/detail1.md"] (by simp)

def exDocC2bad : String :=
  "Standings as of 2024-01-10\n| Standing | Details |\n|---|---|\n| 1 | x(a)b |"

/-- C2 counterexample: the claim as stated is false.  For the kept row whose
last cell is `x(a)b` the source emits the base URL followed by `a)` (the
Python slice drops only the final character `b`), while the text strictly
between the first `(` and the last `)` is `a`. -/
theorem c2_link_rule_counterexample :
    parse_markdown_table exDocC2bad =
      .ok ⟨["Standing", "Details"], [["1", linkBase ++ "a)"]], "2024-01-10"⟩ ∧
    specBetweenParens "x(a)b" = "a" ∧
    linkBase ++ "a)" ≠ linkBase ++ specBetweenParens "x(a)b" :=
  ⟨rfl, rfl, by decide⟩

/-- C8 (spec-modelled cache): a first successful Retrieve stores the body; a
second call on the same location within the 24-hour window returns the cached
text with no network request and an unchanged cache; a call at or after the
window's end performs a fresh network request and replaces the entry.  In
addition, any lookup that avoids the network returns an entry strictly
younger than the validity window. -/
theorem c8_cache_reuse :
    (∀ (url b1 b2 b3 : String) (t0 t1 t2 : Nat) (s1 s2 s3 : FetchStep),
        s1 = fetch_leaderboard_data [] url t0 (some b1) →
        s2 = fetch_leaderboard_data s1.cache url t1 (some b2) →
        s3 = fetch_leaderboard_data s2.cache url t2 (some b3) →
        t0 ≤ t1 → t1 < t0 + cacheTTL → t0 + cacheTTL ≤ t2 →
        s1.networkCalls = 1 ∧ s1.result = some b1 ∧
        s2.networkCalls = 0 ∧ s2.result = some b1 ∧ s2.cache = s1.cache ∧
        s3.networkCalls = 1 ∧ s3.result = some b3 ∧
        lookupFresh s3.cache url t2 = some ⟨b3, t2⟩) ∧
    (∀ (cache : List (String × CacheEntry)) (url : String) (now : Nat) (e : CacheEntry),
        lookupFresh cache url now = some e → now < e.fetchedAt + cacheTTL) := by
  constructor
  · intro url b1 b2 b3 t0 t1 t2 s1 s2 s3 h1 h2 h3 h01 hwin hexp
    have e1 : fetch_leaderboard_data [] url t0 (some b1) =
        ⟨some b1, [(url, ⟨b1, t0⟩)], 1, false⟩ := rfl
    rw [e1] at h1
    subst h1
    dsimp only at h2
    have e2 : fetch_leaderboard_data [(url, ⟨b1, t0⟩)] url t1 (some b2) =
        ⟨some b1, [(url, ⟨b1, t0⟩)], 0, false⟩ := by
      unfold fetch_leaderboard_data lookupFresh
      simp only [List.find?]
      rw [BEq.refl]
      dsimp only
      rw [if_pos hwin]
    rw [e2] at h2
    subst h2
    dsimp only at h3
    have e3 : fetch_leaderboard_data [(url, ⟨b1, t0⟩)] url t2 (some b3) =
        ⟨some b3, [(url, ⟨b3, t2⟩)], 1, false⟩ := by
      unfold fetch_leaderboard_data lookupFresh storeEntry
      simp only [List.find?]
      rw [BEq.refl]
      dsimp only
      rw [if_neg (by omega)]
      dsimp only
      simp [List.filter]
    rw [e3] at h3
    subst h3
    refine ⟨rfl, rfl, rfl, rfl, rfl, rfl, rfl, ?_⟩
    unfold lookupFresh
    simp only [List.find?]
    rw [BEq.refl]
    dsimp only
    rw [if_pos (by unfold cacheTTL; omega)]
  · intro cache url now e h
    unfold lookupFresh at h
    cases hf : cache.find? (fun p => p.1 == url) with
    | none => rw [hf] at h; exact absurd h (by simp)
    | some p =>
      rw [hf] at h
      dsimp only at h
      by_cases hc : now < p.2.fetchedAt + cacheTTL
      · rw [if_pos hc] at h
        injection h with h
        subst h
        exact hc
      · rw [if_neg hc] at h
        exact absurd h (by simp)

/-- C8 witness: the theorem applied to a concrete three-call scenario at
times 0, 1 and exactly the window's length. -/
theorem c8_cache_reuse_witness :
    (FetchStep.mk (some "a") [("u", ⟨"a", 0⟩)] 1 false).networkCalls = 1 ∧
    (FetchStep.mk (some "a") [("u", ⟨"a", 0⟩)] 1 false).result = some "a" ∧
    (FetchStep.mk (some "a") [("u", ⟨"a", 0⟩)] 0 false).networkCalls = 0 ∧
    (FetchStep.mk (some "a") [("u", ⟨"a", 0⟩)] 0 false).result = some "a" ∧
    (FetchStep.mk (some "a") [("u", ⟨"a", 0⟩)] 0 false).cache =
      (FetchStep.mk (some "a") [("u", ⟨"a", 0⟩)] 1 false).cache ∧
    (FetchStep.mk (some "c") [("u", ⟨"c", cacheTTL⟩)] 1 false).networkCalls = 1 ∧
    (FetchStep.mk (some "c") [("u", ⟨"c", cacheTTL⟩)] 1 false).result = some "c" ∧
    lookupFresh (FetchStep.mk (some "c") [("u", ⟨"c", cacheTTL⟩)] 1 false).cache
      "u" cacheTTL = some ⟨"c", cacheTTL⟩ :=
  c8_cache_reuse.1 "u" "a" "b" "c" 0 1 cacheTTL
    ⟨some "a", [("u", ⟨"a", 0⟩)], 1, false⟩
    ⟨some "a", [("u", ⟨"a", 0⟩)], 0, false⟩
    ⟨some "c", [("u", ⟨"c", cacheTTL⟩)], 1, false⟩
    (by rfl) (by rfl) (by rfl) (by decide) (by decide) (by decide)

/-- The Global source location from `LEADERBOARD_URLS`. -/
def globalURL : String :=
  "https://raw.githubusercontent.com/ValveSoftware/counter-strike_regional_standings/main/standings_global.md"

/-- C10: an HTTP 200 reply with an empty body is returned by the fetcher with
no error shown, and the presenter's truthiness test then treats it exactly
like a fetch failure: nothing is rendered for the tab — no table, no parse
error, no diagnostics — and the parser (which would report a missing header
on the empty text) is never consulted. -/
theorem c10_empty_body :
    LEADERBOARD_URLS.find? (fun p => p.1 == "Global") = some ("Global", globalURL) ∧
    (fetch_leaderboard_data [] globalURL 0 (some "")).result = some "" ∧
    (fetch_leaderboard_data [] globalURL 0 (some "")).errorShown = false ∧
    display_leaderboard (some "") = RenderOutcome.nothing ∧
    display_leaderboard none = RenderOutcome.nothing ∧
    parse_markdown_table "" = .error .missingHeader ∧
    display_leaderboard (some "") ≠ RenderOutcome.shownParseError ParseErr.missingHeader :=
  ⟨by decide, rfl, rfl, rfl, rfl, rfl, by decide⟩
